import Mathlib

/-!
# Verification of the face-attendance backend (src/app/main.py)

Shallow embedding of the two HTTP operations of the service:

* `save_embedding`  — `POST /api/students/{student_id}/embedding` (main.py lines 71-99)
* `checkin_vec`     — `POST /api/attendance/checkin-vec` (main.py lines 103-186)

The relational store is modelled as an explicit record of table contents
(`DBState`); each handler is a pure function from its request data and the
current store to a response-or-error together with the possibly updated store.
Python floats are modelled as rationals (list entries) with real-valued
similarity; timestamps are integers counted in seconds.
-/

namespace FaceAttendance

/-- Dot product of two numeric vectors, pairwise up to the shorter length
(`sum(x*y for x, y in zip(a, b))`). -/
def dot (a b : List ℚ) : ℚ :=
  (List.zipWith (· * ·) a b).sum

/-- Sum of squares of a vector: the square of its L2 norm. -/
def sumsq (a : List ℚ) : ℚ :=
  dot a a

/-- Modelled from the spec: the function `cosine_similarity` is called at
src/app/main.py line 155 but its definition is not part of the provided
sources.  Spec section 4.1: return `-1.0` when the two vectors differ in
length, either is empty, or either has zero magnitude (L2 norm = 0);
otherwise return `dot(a,b) / (norm2 a * norm2 b)`. -/
noncomputable def cosine_similarity (a b : List ℚ) : ℝ :=
  if a.length ≠ b.length ∨ a = [] ∨ b = [] ∨ sumsq a = 0 ∨ sumsq b = 0 then
    -1
  else
    (dot a b : ℝ) / (Real.sqrt (sumsq a : ℚ) * Real.sqrt (sumsq b : ℚ))

/-! ## Relational store model

One record per table row; the store is a record of lists.  A stored embedding
value is `Option (List ℚ)`: `some v` is a value that decodes to the vector
`v`, `none` is a malformed stored value whose JSON decode fails
(main.py lines 147-151 skip such a row). -/

structure HTTPError where
  status : Nat
  detail : String
deriving DecidableEq

structure UserRow where
  id : ℤ
  role : String
deriving DecidableEq

structure EmbeddingRow where
  student_id : ℤ
  embedding : Option (List ℚ)
  created_at : ℤ
deriving DecidableEq

structure EnrollmentRow where
  course_id : ℤ
  student_id : ℤ
deriving DecidableEq

structure SessionRow where
  id : ℤ
  course_id : ℤ
  start_time : ℤ
  late_after_minutes : Option ℤ
deriving DecidableEq

structure AttendanceRow where
  session_id : ℤ
  student_id : ℤ
  status : String
  timestamp : ℤ
deriving DecidableEq

structure DBState where
  users : List UserRow
  student_embeddings : List EmbeddingRow
  enrollments : List EnrollmentRow
  sessions : List SessionRow
  attendance : List AttendanceRow
deriving DecidableEq

/-- `SELECT role FROM public.users WHERE id=%s` followed by `fetchone`
(main.py lines 81-82). -/
def roleOf (st : DBState) (student_id : ℤ) : Option String :=
  (st.users.find? (fun u => u.id == student_id)).map (fun u => u.role)

/-- `INSERT INTO public.student_embeddings ... ON CONFLICT (student_id)
DO UPDATE SET embedding = EXCLUDED.embedding, created_at = NOW()`
(main.py lines 89-97). -/
def upsertEmbedding (st : DBState) (student_id : ℤ) (v : List ℚ) (now : ℤ) :
    DBState :=
  { st with student_embeddings :=
      if st.student_embeddings.any (fun r => r.student_id == student_id) then
        st.student_embeddings.map (fun r =>
          if r.student_id == student_id then ⟨student_id, some v, now⟩ else r)
      else
        st.student_embeddings ++ [⟨student_id, some v, now⟩] }

structure SaveResp where
  student_id : ℤ
  saved_dims : Nat
deriving DecidableEq

/-- Handler for `POST /api/students/{student_id}/embedding`
(main.py lines 71-99).  The store is returned alongside the
response, unchanged on every error path. -/
def save_embedding (student_id : ℤ) (emb : List ℚ) (now : ℤ) (st : DBState) :
    Except HTTPError SaveResp × DBState :=
  if emb.length < 64 then
    (.error ⟨400, "Invalid embedding length"⟩, st)
  else
    -- keep at most 128 dims (face-api.js descriptor length)
    let emb2 := emb.take 128
    match roleOf st student_id with
    | none => (.error ⟨404, "Student not found"⟩, st)
    | some role =>
        if role ≠ "student" then (.error ⟨400, "User is not a student"⟩, st)
        else (.ok ⟨student_id, emb2.length⟩, upsertEmbedding st student_id emb2 now)

/-- `SELECT se.student_id, se.embedding FROM student_embeddings se JOIN
enrollments e ON e.student_id = se.student_id WHERE e.course_id = %s`
(main.py lines 130-138). -/
def courseRows (st : DBState) (course_id : ℤ) : List (ℤ × Option (List ℚ)) :=
  (st.student_embeddings.filter (fun se =>
      st.enrollments.any (fun e =>
        e.course_id == course_id && e.student_id == se.student_id))).map
    (fun se => (se.student_id, se.embedding))

/-- One iteration of the best-match loop (main.py lines 146-157): a row whose
stored value fails to decode is skipped, otherwise the running best is
replaced exactly when the new similarity is strictly greater. -/
noncomputable def scanStep (simFn : List ℚ → List ℚ → ℝ) (live : List ℚ)
    (best : Option ℤ × ℝ) (row : ℤ × Option (List ℚ)) : Option ℤ × ℝ :=
  match row.2 with
  | none => best
  | some emb =>
      let sim := simFn live emb
      if sim > best.2 then (some row.1, sim) else best

/-- The best-match loop, starting from `best_id, best_sim = None, -1.0`
(main.py line 145). -/
noncomputable def scanBest (simFn : List ℚ → List ℚ → ℝ) (live : List ℚ)
    (rows : List (ℤ × Option (List ℚ))) : Option ℤ × ℝ :=
  rows.foldl (scanStep simFn live) (none, -1)

/-- Acceptance threshold of main.py line 160. -/
noncomputable def THRESHOLD : ℝ := 0.60

/-- `round(best_sim, 4)` of main.py line 182 (ties at the exact half are not
relevant to any claim, so the rounding mode is the library's default). -/
noncomputable def round4 (x : ℝ) : ℝ :=
  ((round (x * 10000) : ℤ) : ℝ) / 10000

structure CheckinResp where
  matched_student_id : ℤ
  similarity : ℝ
  status : String
  course_id : ℤ
  session_id : ℤ

/-- `INSERT INTO public.attendance ... ON CONFLICT (session_id, student_id)
DO UPDATE SET status = EXCLUDED.status, timestamp = NOW()`
(main.py lines 169-177). -/
def upsertAttendance (st : DBState) (session_id student_id : ℤ)
    (status : String) (now : ℤ) : DBState :=
  { st with attendance :=
      if st.attendance.any (fun a =>
          a.session_id == session_id && a.student_id == student_id) then
        st.attendance.map (fun a =>
          if a.session_id == session_id && a.student_id == student_id then
            ⟨session_id, student_id, status, now⟩
          else a)
      else
        st.attendance ++ [⟨session_id, student_id, status, now⟩] }

/-- Handler for `POST /api/attendance/checkin-vec` (main.py lines 103-186),
parametrised by the similarity function it calls at line 155 (the deployed
instance is `cosine_similarity`).  `now` is the current UTC instant in
seconds; `timedelta(minutes=late_after or 0)` becomes `60 * getD 0`. -/
noncomputable def checkin_vec (simFn : List ℚ → List ℚ → ℝ)
    (course_id session_id : ℤ) (live : List ℚ) (now : ℤ) (st : DBState) :
    Except HTTPError CheckinResp × DBState :=
  if live.length < 64 then
    (.error ⟨400, "Invalid embedding length"⟩, st)
  else
    let live2 := live.take 128
    -- make sure this session belongs to the course
    match st.sessions.find? (fun s =>
        s.id == session_id && s.course_id == course_id) with
    | none => (.error ⟨404, "Session not found for course"⟩, st)
    | some s =>
        let rows := courseRows st course_id
        if rows.isEmpty then
          (.error ⟨404, "No embeddings for this course"⟩, st)
        else
          match scanBest simFn live2 rows with
          | (none, _) => (.error ⟨404, "No matching student"⟩, st)
          | (some best_id, best_sim) =>
              if best_sim < THRESHOLD then
                (.error ⟨404, "No matching student"⟩, st)
              else
                let cutoff := s.start_time + 60 * s.late_after_minutes.getD 0
                let status := if now ≤ cutoff then "present" else "late"
                (.ok ⟨best_id, round4 best_sim, status, course_id, session_id⟩,
                 upsertAttendance st session_id best_id status now)

/-! ## Analysis of the best-match scan -/

/-- The candidates that actually get scored: decode failures dropped, each
remaining candidate paired with its similarity against `live`. -/
noncomputable def scored (simFn : List ℚ → List ℚ → ℝ) (live : List ℚ)
    (rows : List (ℤ × Option (List ℚ))) : List (ℤ × ℝ) :=
  rows.filterMap (fun r => r.2.map (fun e => (r.1, simFn live e)))

/-- The scan step on an already-scored candidate. -/
noncomputable def goStep (best : Option ℤ × ℝ) (p : ℤ × ℝ) : Option ℤ × ℝ :=
  if p.2 > best.2 then (some p.1, p.2) else best

/-- First candidate of `l` whose similarity equals `M`. -/
noncomputable def firstAt (M : ℝ) : List (ℤ × ℝ) → Option ℤ
  | [] => none
  | p :: l => if p.2 = M then some p.1 else firstAt M l

/-- The maximum tracked by the scan over the scored candidates, seeded with
the initial running best `-1.0`. -/
noncomputable def bestOf (simFn : List ℚ → List ℚ → ℝ) (live : List ℚ)
    (rows : List (ℤ × Option (List ℚ))) : ℝ :=
  ((scored simFn live rows).map Prod.snd).foldl max (-1)

/-- A small concrete store used by the witnesses: student 9 enrolled in
course 2 with a stored 64-dim embedding, a non-student user 10, and session 5
of course 2 starting at time 1000 with a 10-minute grace period. -/
def stExample : DBState :=
  ⟨[⟨9, "student"⟩, ⟨10, "teacher"⟩],
   [⟨9, some (List.replicate 64 1), 0⟩],
   [⟨2, 9⟩],
   [⟨5, 2, 1000, some 10⟩],
   []⟩

/-- A 64-entry live descriptor used by the witnesses. -/
def liveExample : List ℚ := List.replicate 64 1

/-! ## Lemmas and claim theorems -/

theorem dot_nil_left (b : List ℚ) : dot [] b = 0 := rfl

theorem dot_cons_cons (x y : ℚ) (a b : List ℚ) :
    dot (x :: a) (y :: b) = x * y + dot a b := by
  simp [dot, List.zipWith]

theorem sumsq_nil : sumsq [] = 0 := rfl

theorem sumsq_cons (x : ℚ) (a : List ℚ) :
    sumsq (x :: a) = x * x + sumsq a := by
  simp [sumsq, dot_cons_cons]

theorem sumsq_nonneg (a : List ℚ) : 0 ≤ sumsq a := by
  induction a with
  | nil => simp [sumsq_nil]
  | cons x a ih =>
      have := mul_self_nonneg x
      rw [sumsq_cons]
      linarith

/-- Cauchy-Schwarz for the list dot product. -/
theorem dot_sq_le_sumsq_mul_sumsq (a b : List ℚ) :
    dot a b ^ 2 ≤ sumsq a * sumsq b := by
  induction a generalizing b with
  | nil =>
      simp [dot_nil_left, sumsq_nil]
  | cons x a ih =>
      cases b with
      | nil =>
          have ha := sumsq_nonneg (x :: a)
          simp only [dot, List.zipWith, sumsq_nil, mul_zero]
          norm_num
      | cons y b =>
          have hD := ih b
          have hA := sumsq_nonneg a
          have hB := sumsq_nonneg b
          rw [dot_cons_cons, sumsq_cons, sumsq_cons]
          rcases eq_or_lt_of_le hA with hA0 | hApos
          · have hD0 : dot a b = 0 := by
              have h1 : dot a b ^ 2 ≤ 0 := by
                calc dot a b ^ 2 ≤ sumsq a * sumsq b := hD
                _ = 0 := by rw [← hA0]; ring
              have := sq_nonneg (dot a b)
              have : dot a b ^ 2 = 0 := le_antisymm h1 this
              exact pow_eq_zero_iff (n := 2) (by norm_num) |>.mp this
            rw [hD0, ← hA0]
            nlinarith [mul_nonneg (mul_self_nonneg x) hB]
          · have h1 := sq_nonneg (x * dot a b - y * sumsq a)
            have h2 : 0 ≤ x ^ 2 * (sumsq a * sumsq b - dot a b ^ 2) :=
              mul_nonneg (sq_nonneg x) (by linarith)
            have h3 : 0 ≤ sumsq a * (sumsq a * sumsq b - dot a b ^ 2) :=
              mul_nonneg hA (by linarith)
            nlinarith [h1, h2, h3, hApos]

theorem sumsq_pos_of_ne_zero {a : List ℚ} (h : sumsq a ≠ 0) : 0 < sumsq a :=
  lt_of_le_of_ne (sumsq_nonneg a) (Ne.symm h)

/-- In the valid branch the quotient is bounded in absolute value by 1. -/
theorem abs_cosine_quotient_le_one {a b : List ℚ}
    (ha : sumsq a ≠ 0) (hb : sumsq b ≠ 0) :
    |(dot a b : ℝ) / (Real.sqrt (sumsq a : ℚ) * Real.sqrt (sumsq b : ℚ))| ≤ 1 := by
  have hA : (0 : ℝ) < (sumsq a : ℚ) := by exact_mod_cast sumsq_pos_of_ne_zero ha
  have hB : (0 : ℝ) < (sumsq b : ℚ) := by exact_mod_cast sumsq_pos_of_ne_zero hb
  have hcs : ((dot a b : ℚ) : ℝ) ^ 2 ≤ ((sumsq a : ℚ) : ℝ) * ((sumsq b : ℚ) : ℝ) := by
    exact_mod_cast dot_sq_le_sumsq_mul_sumsq a b
  have hsa : (0 : ℝ) < Real.sqrt (sumsq a : ℚ) := Real.sqrt_pos.mpr hA
  have hsb : (0 : ℝ) < Real.sqrt (sumsq b : ℚ) := Real.sqrt_pos.mpr hB
  have habs : |((dot a b : ℚ) : ℝ)| ≤ Real.sqrt (sumsq a : ℚ) * Real.sqrt (sumsq b : ℚ) := by
    calc |((dot a b : ℚ) : ℝ)| = Real.sqrt (((dot a b : ℚ) : ℝ) ^ 2) :=
          (Real.sqrt_sq_eq_abs _).symm
    _ ≤ Real.sqrt (((sumsq a : ℚ) : ℝ) * ((sumsq b : ℚ) : ℝ)) := Real.sqrt_le_sqrt hcs
    _ = Real.sqrt (sumsq a : ℚ) * Real.sqrt (sumsq b : ℚ) := Real.sqrt_mul hA.le _
  rw [abs_div]
  rw [div_le_one (by positivity)]
  calc |((dot a b : ℚ) : ℝ)| ≤ Real.sqrt (sumsq a : ℚ) * Real.sqrt (sumsq b : ℚ) := habs
  _ = |Real.sqrt (sumsq a : ℚ) * Real.sqrt (sumsq b : ℚ)| := (abs_of_pos (by positivity)).symm

theorem scanBest_eq_scored_foldl (simFn : List ℚ → List ℚ → ℝ) (live : List ℚ)
    (rows : List (ℤ × Option (List ℚ))) :
    scanBest simFn live rows = (scored simFn live rows).foldl goStep (none, -1) := by
  suffices h : ∀ acc, rows.foldl (scanStep simFn live) acc
      = (scored simFn live rows).foldl goStep acc by
    exact h (none, -1)
  induction rows with
  | nil => intro acc; rfl
  | cons r t ih =>
      intro acc
      cases hr : r.2 with
      | none =>
          simp only [List.foldl_cons, scored, List.filterMap_cons, hr,
            Option.map_none]
          have : scanStep simFn live acc r = acc := by
            simp [scanStep, hr]
          rw [this]
          exact ih acc
      | some e =>
          simp only [List.foldl_cons, scored, List.filterMap_cons, hr,
            Option.map_some]
          have : scanStep simFn live acc r = goStep acc (r.1, simFn live e) := by
            simp [scanStep, hr, goStep]
          rw [this]
          exact ih _

theorem le_foldl_max (l : List ℝ) (a : ℝ) : a ≤ l.foldl max a := by
  induction l generalizing a with
  | nil => simp
  | cons x t ih =>
      calc a ≤ max a x := le_max_left a x
      _ ≤ t.foldl max (max a x) := ih (max a x)
      _ = (x :: t).foldl max a := by simp

theorem mem_le_foldl_max {x : ℝ} {l : List ℝ} (a : ℝ) (hx : x ∈ l) :
    x ≤ l.foldl max a := by
  induction l generalizing a with
  | nil => cases hx
  | cons y t ih =>
      rcases List.mem_cons.mp hx with h | h
      · subst h
        calc x ≤ max a x := le_max_right a x
        _ ≤ t.foldl max (max a x) := le_foldl_max t (max a x)
        _ = (x :: t).foldl max a := by simp
      · simpa using ih (max a y) h

theorem foldl_max_eq_or_mem (l : List ℝ) (a : ℝ) :
    l.foldl max a = a ∨ l.foldl max a ∈ l := by
  induction l generalizing a with
  | nil => left; rfl
  | cons x t ih =>
      rcases ih (max a x) with h | h
      · rcases max_choice a x with hm | hm
        · left; simpa [hm] using h
        · right
          simp only [List.foldl_cons]
          rw [h, hm]
          exact List.mem_cons_self x t
      · right
        simp only [List.foldl_cons]
        exact List.mem_cons_of_mem x h

theorem firstAt_mem {M : ℝ} {l : List (ℤ × ℝ)} {i : ℤ}
    (h : firstAt M l = some i) : (i, M) ∈ l := by
  induction l with
  | nil => simp [firstAt] at h
  | cons p t ih =>
      by_cases hp : p.2 = M
      · simp only [firstAt, if_pos hp] at h
        have h1 : p.1 = i := Option.some.inj h
        have hpi : p = (i, M) := by rw [← h1, ← hp]
        rw [← hpi]
        exact List.mem_cons_self p t
      · simp only [firstAt, if_neg hp] at h
        exact List.mem_cons_of_mem p (ih h)

theorem firstAt_isSome {M : ℝ} {l : List (ℤ × ℝ)}
    (h : M ∈ l.map Prod.snd) : ∃ i, firstAt M l = some i := by
  induction l with
  | nil => simp at h
  | cons p t ih =>
      by_cases hp : p.2 = M
      · exact ⟨p.1, by simp [firstAt, hp]⟩
      · have hM : M ∈ t.map Prod.snd := by
          rcases List.mem_map.mp h with ⟨q, hq, hq2⟩
          rcases List.mem_cons.mp hq with rfl | hq
          · exact absurd hq2 hp
          · exact List.mem_map.mpr ⟨q, hq, hq2⟩
        rcases ih hM with ⟨i, hi⟩
        exact ⟨i, by simp [firstAt, hp, hi]⟩

theorem firstAt_first {M : ℝ} {l : List (ℤ × ℝ)} {i : ℤ}
    (h : firstAt M l = some i) :
    ∃ l₁ l₂, l = l₁ ++ (i, M) :: l₂ ∧ ∀ q ∈ l₁, q.2 ≠ M := by
  induction l with
  | nil => simp [firstAt] at h
  | cons p t ih =>
      by_cases hp : p.2 = M
      · simp only [firstAt, if_pos hp] at h
        have h1 : p.1 = i := Option.some.inj h
        have hpi : p = (i, M) := by rw [← h1, ← hp]
        refine ⟨[], t, ?_, by simp⟩
        rw [← hpi]
        rfl
      · simp only [firstAt, if_neg hp] at h
        rcases ih h with ⟨l₁, l₂, hl, hne⟩
        refine ⟨p :: l₁, l₂, by rw [hl]; rfl, ?_⟩
        intro q hq
        rcases List.mem_cons.mp hq with rfl | hq
        · exact hp
        · exact hne q hq

/-- Characterisation of the scan fold: starting from running best `(oi, m)`,
the fold returns the first candidate strictly improving on `m` and attaining
the maximum, or the unchanged accumulator when nothing exceeds `m`. -/
theorem goBest_spec (l : List (ℤ × ℝ)) : ∀ (oi : Option ℤ) (m : ℝ),
    l.foldl goStep (oi, m) =
      if (l.map Prod.snd).foldl max m > m then
        (firstAt ((l.map Prod.snd).foldl max m) l, (l.map Prod.snd).foldl max m)
      else (oi, m) := by
  induction l with
  | nil =>
      intro oi m
      simp
  | cons p t ih =>
      intro oi m
      simp only [List.foldl_cons, List.map_cons]
      by_cases hp : p.2 > m
      · have hstep : goStep (oi, m) p = (some p.1, p.2) := by
          simp [goStep, hp]
        rw [hstep, ih (some p.1) p.2]
        have hmax : max m p.2 = p.2 := max_eq_right (le_of_lt hp)
        rw [hmax]
        set M := (t.map Prod.snd).foldl max p.2 with hM
        have hpM : p.2 ≤ M := le_foldl_max _ _
        have hMm : M > m := lt_of_lt_of_le hp hpM
        rw [if_pos hMm]
        by_cases hMp : M > p.2
        · rw [if_pos hMp]
          have : firstAt M (p :: t) = firstAt M t := by
            simp [firstAt, ne_of_lt hMp]
          rw [this]
        · have hMeq : M = p.2 := le_antisymm (not_lt.mp hMp) hpM
          rw [if_neg hMp]
          have : firstAt M (p :: t) = some p.1 := by
            simp [firstAt, hMeq]
          rw [this, hMeq]
      · have hstep : goStep (oi, m) p = (oi, m) := by
          simp [goStep, hp]
        rw [hstep, ih oi m]
        have hmax : max m p.2 = m := max_eq_left (not_lt.mp hp)
        rw [hmax]
        set M := (t.map Prod.snd).foldl max m with hM
        by_cases hMm : M > m
        · rw [if_pos hMm, if_pos hMm]
          have : firstAt M (p :: t) = firstAt M t := by
            have : p.2 ≠ M := ne_of_lt (lt_of_le_of_lt (not_lt.mp hp) hMm)
            simp [firstAt, this]
          rw [this]
        · rw [if_neg hMm, if_neg hMm]

theorem scanBest_spec (simFn : List ℚ → List ℚ → ℝ) (live : List ℚ)
    (rows : List (ℤ × Option (List ℚ))) :
    scanBest simFn live rows =
      if bestOf simFn live rows > -1 then
        (firstAt (bestOf simFn live rows) (scored simFn live rows),
         bestOf simFn live rows)
      else (none, -1) := by
  rw [scanBest_eq_scored_foldl, goBest_spec]
  rfl

/-! ## Claim theorems -/

/-- C1: the similarity function, applied to two numeric vectors `a` and `b`,
returns a scalar in `[-1, 1]`, and returns exactly the sentinel `-1.0`
whenever `a` and `b` differ in length, either vector is empty, or either
vector has zero L2 norm; for all other inputs it returns `dot(a,b)` divided
by the product of the two L2 norms. -/
theorem claim_c1_cosine_similarity (a b : List ℚ) :
    (-1 ≤ cosine_similarity a b ∧ cosine_similarity a b ≤ 1) ∧
    ((a.length ≠ b.length ∨ a = [] ∨ b = [] ∨ sumsq a = 0 ∨ sumsq b = 0) →
      cosine_similarity a b = -1) ∧
    (a.length = b.length → a ≠ [] → b ≠ [] → sumsq a ≠ 0 → sumsq b ≠ 0 →
      cosine_similarity a b
        = (dot a b : ℝ) / (Real.sqrt (sumsq a : ℚ) * Real.sqrt (sumsq b : ℚ))) := by
  refine ⟨?_, ?_, ?_⟩
  · by_cases h : a.length ≠ b.length ∨ a = [] ∨ b = [] ∨ sumsq a = 0 ∨ sumsq b = 0
    · rw [cosine_similarity, if_pos h]
      norm_num
    · rw [cosine_similarity, if_neg h]
      push_neg at h
      obtain ⟨h1, h2, h3, h4, h5⟩ := h
      exact abs_le.mp (abs_cosine_quotient_le_one h4 h5)
  · intro h
    rw [cosine_similarity, if_pos h]
  · intro h1 h2 h3 h4 h5
    rw [cosine_similarity, if_neg (by push_neg; exact ⟨h1, h2, h3, h4, h5⟩)]

/-- Witness for C1 at `a = b = [1]`: a valid pair, similarity `1`. -/
theorem claim_c1_cosine_similarity_witness :
    cosine_similarity [(1 : ℚ)] [(1 : ℚ)] = 1 := by
  have h := (claim_c1_cosine_similarity [(1 : ℚ)] [(1 : ℚ)]).2.2
    rfl (by simp) (by simp) (by norm_num [sumsq, dot]) (by norm_num [sumsq, dot])
  rw [h]
  have hd : dot [(1 : ℚ)] [(1 : ℚ)] = 1 := by norm_num [dot]
  have hs : sumsq [(1 : ℚ)] = 1 := by norm_num [sumsq, dot]
  rw [hd, hs]
  norm_num

theorem threshold_pos : (-1 : ℝ) < THRESHOLD := by norm_num [THRESHOLD]

/-- Reduction of `checkin_vec` once the validation prefix (length, session,
non-empty candidate set) has passed. -/
theorem checkin_vec_reduce (simFn : List ℚ → List ℚ → ℝ)
    (course_id session_id : ℤ) (live : List ℚ) (now : ℤ) (st : DBState)
    (sess : SessionRow)
    (hlen : ¬ live.length < 64)
    (hsess : st.sessions.find? (fun s =>
        s.id == session_id && s.course_id == course_id) = some sess)
    (hrows : courseRows st course_id ≠ []) :
    checkin_vec simFn course_id session_id live now st =
      match scanBest simFn (live.take 128) (courseRows st course_id) with
      | (none, _) => (.error ⟨404, "No matching student"⟩, st)
      | (some best_id, best_sim) =>
          if best_sim < THRESHOLD then
            (.error ⟨404, "No matching student"⟩, st)
          else
            (.ok ⟨best_id, round4 best_sim,
                  (if now ≤ sess.start_time + 60 * sess.late_after_minutes.getD 0
                   then "present" else "late"),
                  course_id, session_id⟩,
             upsertAttendance st session_id best_id
               (if now ≤ sess.start_time + 60 * sess.late_after_minutes.getD 0
                then "present" else "late") now) := by
  have hre : (courseRows st course_id).isEmpty = false := by
    cases hcr : courseRows st course_id with
    | nil => exact absurd hcr hrows
    | cons x t => rfl
  simp only [checkin_vec, if_neg hlen, hsess, hre, Bool.false_eq_true,
    if_false]

/-- C2: once session resolution passes and the candidate set is non-empty,
a best (scored) similarity below `0.60` — including the case where no
candidate could be scored — yields the 404 "No matching student" error with
the store untouched; a best similarity at least `0.60` yields success
reporting the maximising student (the first scored candidate attaining the
maximum). -/
theorem claim_c2_threshold (simFn : List ℚ → List ℚ → ℝ)
    (course_id session_id : ℤ) (live : List ℚ) (now : ℤ) (st : DBState)
    (sess : SessionRow) (B : ℝ)
    (hlen : ¬ live.length < 64)
    (hsess : st.sessions.find? (fun s =>
        s.id == session_id && s.course_id == course_id) = some sess)
    (hrows : courseRows st course_id ≠ [])
    (hB : B = bestOf simFn (live.take 128) (courseRows st course_id)) :
    (B < THRESHOLD →
      checkin_vec simFn course_id session_id live now st
        = (.error ⟨404, "No matching student"⟩, st)) ∧
    (THRESHOLD ≤ B →
      ∃ i r, (checkin_vec simFn course_id session_id live now st).1 = .ok r ∧
        r.matched_student_id = i ∧
        (i, B) ∈ scored simFn (live.take 128) (courseRows st course_id) ∧
        (∀ p ∈ scored simFn (live.take 128) (courseRows st course_id),
          p.2 ≤ B)) := by
  have hB2 : B = List.foldl max (-1)
      ((scored simFn (live.take 128) (courseRows st course_id)).map Prod.snd) := hB
  have hBmem : B > -1 →
      B ∈ (scored simFn (live.take 128) (courseRows st course_id)).map Prod.snd := by
    intro hgt
    rcases foldl_max_eq_or_mem
        ((scored simFn (live.take 128) (courseRows st course_id)).map Prod.snd) (-1) with h | h
    · rw [← hB2] at h
      exact absurd h (ne_of_gt hgt)
    · rw [← hB2] at h
      exact h
  rw [checkin_vec_reduce simFn course_id session_id live now st sess hlen hsess hrows]
  rw [scanBest_spec]
  rw [← hB]
  constructor
  · intro hlt
    by_cases hgt : B > -1
    · obtain ⟨i, hi⟩ := firstAt_isSome (hBmem hgt)
      rw [if_pos hgt, hi]
      simp only [if_pos hlt]
    · rw [if_neg hgt]
  · intro hge
    have hgt : B > -1 := lt_of_lt_of_le threshold_pos hge
    obtain ⟨i, hi⟩ := firstAt_isSome (hBmem hgt)
    rw [if_pos hgt, hi]
    refine ⟨i, ⟨i, round4 B,
      (if now ≤ sess.start_time + 60 * sess.late_after_minutes.getD 0
       then "present" else "late"), course_id, session_id⟩,
      ?_, rfl, firstAt_mem hi, ?_⟩
    · simp only [if_neg (not_lt.mpr hge)]
    · intro p hp
      rw [hB2]
      exact mem_le_foldl_max (-1) (List.mem_map.mpr ⟨p, hp, rfl⟩)

/-- C3: for every successful check-in, the recorded status is `present` iff
`now` is at most `start_time` plus the grace period in minutes (a missing
grace period counting as 0), `late` otherwise, and no third status value is
possible; the attendance upsert records exactly that status. -/
theorem claim_c3_status (simFn : List ℚ → List ℚ → ℝ)
    (course_id session_id : ℤ) (live : List ℚ) (now : ℤ) (st : DBState)
    (sess : SessionRow) (r : CheckinResp)
    (hsess : st.sessions.find? (fun s =>
        s.id == session_id && s.course_id == course_id) = some sess)
    (hok : (checkin_vec simFn course_id session_id live now st).1 = .ok r) :
    (r.status = "present" ↔
      now ≤ sess.start_time + 60 * sess.late_after_minutes.getD 0) ∧
    (r.status = "late" ↔
      ¬ now ≤ sess.start_time + 60 * sess.late_after_minutes.getD 0) ∧
    (r.status = "present" ∨ r.status = "late") ∧
    (checkin_vec simFn course_id session_id live now st).2
      = upsertAttendance st session_id r.matched_student_id r.status now := by
  by_cases hlen : live.length < 64
  · rw [checkin_vec, if_pos hlen] at hok
    cases hok
  by_cases hrows : courseRows st course_id = []
  · rw [checkin_vec, if_neg hlen, hsess] at hok
    rw [hrows] at hok
    cases hok
  have hred := checkin_vec_reduce simFn course_id session_id live now st sess
    hlen hsess hrows
  rcases hsb : scanBest simFn (live.take 128) (courseRows st course_id) with ⟨obid, bsim⟩
  rw [hsb] at hred
  cases obid with
  | none =>
      rw [hred] at hok
      cases hok
  | some i =>
      dsimp only at hred
      by_cases ht : bsim < THRESHOLD
      · rw [if_pos ht] at hred
        rw [hred] at hok
        cases hok
      · rw [if_neg ht] at hred
        rw [hred] at hok
        have hr : r = ⟨i, round4 bsim,
            (if now ≤ sess.start_time + 60 * sess.late_after_minutes.getD 0
             then "present" else "late"), course_id, session_id⟩ :=
          (Except.ok.inj hok).symm
        rw [hred, hr]
        by_cases hc : now ≤ sess.start_time + 60 * sess.late_after_minutes.getD 0
        · simp [hc]
        · simp [hc]

/-- C4: an enrollment request with `L ≥ 64` entries stores exactly the first
`min L 128` entries and reports `saved_dims = min L 128`; the check-in result
is invariant under truncating the live descriptor to its first 128 entries
(the scan only ever sees `live.take 128`). -/
theorem claim_c4_truncation (student_id : ℤ) (emb : List ℚ) (nowS : ℤ)
    (st : DBState) (simFn : List ℚ → List ℚ → ℝ) (course_id session_id : ℤ)
    (live : List ℚ) (now : ℤ)
    (hlen : 64 ≤ emb.length)
    (hrole : roleOf st student_id = some "student") :
    (save_embedding student_id emb nowS st).1
      = .ok ⟨student_id, min emb.length 128⟩ ∧
    (save_embedding student_id emb nowS st).2
      = upsertEmbedding st student_id (emb.take 128) nowS ∧
    checkin_vec simFn course_id session_id live now st
      = checkin_vec simFn course_id session_id (live.take 128) now st := by
  refine ⟨?_, ?_, ?_⟩
  · rw [save_embedding, if_neg (not_lt.mpr hlen), hrole]
    simp [List.length_take, Nat.min_comm]
  · rw [save_embedding, if_neg (not_lt.mpr hlen), hrole]
    simp
  · by_cases hl : live.length < 64
    · have hl2 : (live.take 128).length < 64 := by
        rw [List.length_take]
        omega
      rw [checkin_vec, if_pos hl, checkin_vec, if_pos hl2]
    · have hl2 : ¬ (live.take 128).length < 64 := by
        rw [List.length_take]
        omega
      rw [checkin_vec, if_neg hl, checkin_vec, if_neg hl2, List.take_take]
      norm_num

/-- C5: the enrollment writer fails 400 "Invalid embedding length" when the
embedding has fewer than 64 entries (before any store lookup — the store is
arbitrary in that conjunct), else 404 when the user is absent, else 400 when
the user's role is not `student`, else succeeds and upserts; these are the
only cases. -/
theorem claim_c5_save_order (student_id : ℤ) (emb : List ℚ) (now : ℤ)
    (st : DBState) :
    (emb.length < 64 →
      save_embedding student_id emb now st
        = (.error ⟨400, "Invalid embedding length"⟩, st)) ∧
    (¬ emb.length < 64 → roleOf st student_id = none →
      save_embedding student_id emb now st
        = (.error ⟨404, "Student not found"⟩, st)) ∧
    (∀ role, ¬ emb.length < 64 → roleOf st student_id = some role →
      role ≠ "student" →
      save_embedding student_id emb now st
        = (.error ⟨400, "User is not a student"⟩, st)) ∧
    (¬ emb.length < 64 → roleOf st student_id = some "student" →
      save_embedding student_id emb now st
        = (.ok ⟨student_id, (emb.take 128).length⟩,
           upsertEmbedding st student_id (emb.take 128) now)) := by
  refine ⟨?_, ?_, ?_, ?_⟩
  · intro h
    rw [save_embedding, if_pos h]
  · intro h hrole
    rw [save_embedding, if_neg h, hrole]
  · intro role h hrole hns
    rw [save_embedding, if_neg h, hrole]
    simp only [if_pos hns]
  · intro h hrole
    rw [save_embedding, if_neg h, hrole]
    simp

/-- C6: check-in resolves the session by the (session id, course id) pair;
when no session row matches both — in particular when the session id exists
under a different course — the operation fails with the 404 "Session not
found for course" error and the store is untouched. -/
theorem claim_c6_session_resolution (simFn : List ℚ → List ℚ → ℝ)
    (course_id session_id : ℤ) (live : List ℚ) (now : ℤ) (st : DBState)
    (hlen : ¬ live.length < 64)
    (hno : ∀ s ∈ st.sessions, ¬ (s.id = session_id ∧ s.course_id = course_id)) :
    checkin_vec simFn course_id session_id live now st
      = (.error ⟨404, "Session not found for course"⟩, st) := by
  have hfind : st.sessions.find? (fun s =>
      s.id == session_id && s.course_id == course_id) = none := by
    rw [List.find?_eq_none]
    intro s hs
    simp only [Bool.and_eq_true, beq_iff_eq, not_and]
    intro h1 h2
    exact hno s hs ⟨h1, h2⟩
  rw [checkin_vec, if_neg hlen, hfind]

/-- C8: a candidate whose stored embedding value fails to decode is skipped by
the matching scan — the scan over any candidate list containing a corrupt row
equals the scan over the same list with that row removed. -/
theorem claim_c8_decode_skip (simFn : List ℚ → List ℚ → ℝ) (live : List ℚ)
    (rows₁ rows₂ : List (ℤ × Option (List ℚ))) (sid : ℤ) :
    scanBest simFn live (rows₁ ++ (sid, none) :: rows₂)
      = scanBest simFn live (rows₁ ++ rows₂) := by
  unfold scanBest
  rw [List.foldl_append, List.foldl_cons, List.foldl_append]
  rfl

/-- C9: both operations leave the store unchanged on every 400/404 error:
the embedding upsert happens only after length, existence and role checks
pass, and the attendance upsert only after session resolution, the non-empty
candidate check and the acceptance threshold pass. -/
theorem claim_c9_atomic_on_error (student_id : ℤ) (emb : List ℚ) (nowS : ℤ)
    (simFn : List ℚ → List ℚ → ℝ) (course_id session_id : ℤ) (live : List ℚ)
    (now : ℤ) (st : DBState) :
    (∀ e, (save_embedding student_id emb nowS st).1 = .error e →
      (save_embedding student_id emb nowS st).2 = st) ∧
    (∀ e, (checkin_vec simFn course_id session_id live now st).1 = .error e →
      (checkin_vec simFn course_id session_id live now st).2 = st) := by
  constructor
  · intro e he
    by_cases h1 : emb.length < 64
    · rw [save_embedding, if_pos h1]
    · rw [save_embedding, if_neg h1] at he ⊢
      cases hrole : roleOf st student_id with
      | none => simp [hrole]
      | some role =>
          by_cases h2 : role ≠ "student"
          · simp [h2]
          · rw [hrole] at he
            simp [h2] at he
  · intro e he
    by_cases h1 : live.length < 64
    · rw [checkin_vec, if_pos h1]
    · by_cases hses : ∃ sess, st.sessions.find? (fun s =>
          s.id == session_id && s.course_id == course_id) = some sess
      · obtain ⟨sess, hsess⟩ := hses
        by_cases hrows : courseRows st course_id = []
        · rw [checkin_vec, if_neg h1, hsess, hrows]
          rfl
        · have hred := checkin_vec_reduce simFn course_id session_id live now
            st sess h1 hsess hrows
          rcases hsb : scanBest simFn (live.take 128) (courseRows st course_id)
            with ⟨obid, bsim⟩
          rw [hsb] at hred
          cases obid with
          | none => rw [hred]
          | some i =>
              dsimp only at hred
              by_cases ht : bsim < THRESHOLD
              · rw [if_pos ht] at hred
                rw [hred]
              · rw [if_neg ht] at hred
                rw [hred] at he
                cases he
      · have hfind : st.sessions.find? (fun s =>
            s.id == session_id && s.course_id == course_id) = none := by
          cases hf : st.sessions.find? (fun s =>
              s.id == session_id && s.course_id == course_id) with
          | none => rfl
          | some sess => exact absurd ⟨sess, hf⟩ hses
        rw [checkin_vec, if_neg h1, hfind]

/-- C10: neither operation enforces an upper bound on the embedding length:
with at least 64 entries (including more than 256) enrollment is never
rejected for being too long — it succeeds for a student-role user, storing
the 128-entry truncation — and check-in never produces a 400 error. -/
theorem claim_c10_no_upper_bound (student_id : ℤ) (emb : List ℚ) (nowS : ℤ)
    (st : DBState) (simFn : List ℚ → List ℚ → ℝ) (course_id session_id : ℤ)
    (now : ℤ) (hlen : 64 ≤ emb.length) :
    (∀ e, (save_embedding student_id emb nowS st).1 = .error e →
      e.detail ≠ "Invalid embedding length") ∧
    (roleOf st student_id = some "student" →
      (save_embedding student_id emb nowS st).1
          = .ok ⟨student_id, min emb.length 128⟩ ∧
        (save_embedding student_id emb nowS st).2
          = upsertEmbedding st student_id (emb.take 128) nowS ∧
        (emb.take 128).length ≤ 128) ∧
    (∀ e, (checkin_vec simFn course_id session_id emb now st).1 = .error e →
      e.status = 404) := by
  have h1 : ¬ emb.length < 64 := not_lt.mpr hlen
  refine ⟨?_, ?_, ?_⟩
  · intro e he
    rw [save_embedding, if_neg h1] at he
    cases hrole : roleOf st student_id with
    | none =>
        rw [hrole] at he
        cases he
        decide
    | some role =>
        rw [hrole] at he
        by_cases h2 : role ≠ "student"
        · simp only [if_pos h2] at he
          cases he
          decide
        · simp only [if_neg h2] at he
          cases he
  · intro hrole
    rw [save_embedding, if_neg h1, hrole]
    refine ⟨by simp [List.length_take, Nat.min_comm], by simp, ?_⟩
    rw [List.length_take]
    omega
  · intro e he
    by_cases hl : emb.length < 64
    · exact absurd hl h1
    by_cases hses : ∃ sess, st.sessions.find? (fun s =>
        s.id == session_id && s.course_id == course_id) = some sess
    · obtain ⟨sess, hsess⟩ := hses
      by_cases hrows : courseRows st course_id = []
      · rw [checkin_vec, if_neg h1, hsess, hrows] at he
        cases he
        rfl
      · have hred := checkin_vec_reduce simFn course_id session_id emb now
          st sess h1 hsess hrows
        rcases hsb : scanBest simFn (emb.take 128) (courseRows st course_id)
          with ⟨obid, bsim⟩
        rw [hsb] at hred
        cases obid with
        | none =>
            rw [hred] at he
            cases he
            rfl
        | some i =>
            dsimp only at hred
            by_cases ht : bsim < THRESHOLD
            · rw [if_pos ht] at hred
              rw [hred] at he
              cases he
              rfl
            · rw [if_neg ht] at hred
              rw [hred] at he
              cases he
    · have hfind : st.sessions.find? (fun s =>
          s.id == session_id && s.course_id == course_id) = none := by
        cases hf : st.sessions.find? (fun s =>
            s.id == session_id && s.course_id == course_id) with
        | none => rfl
        | some sess => exact absurd ⟨sess, hf⟩ hses
      rw [checkin_vec, if_neg h1, hfind] at he
      cases he
      rfl

/-- C7 (amended): when the maximum similarity over the scored candidates
exceeds the initial running best `-1.0`, the scan selects the first scored
candidate attaining that maximum (strict `>` against the running best
preserves first-seen-wins); when no scored candidate exceeds `-1.0`, no
candidate is selected. -/
theorem claim_c7_first_max (simFn : List ℚ → List ℚ → ℝ) (live : List ℚ)
    (rows : List (ℤ × Option (List ℚ))) (B : ℝ)
    (hB : B = bestOf simFn live rows) :
    (-1 < B →
      ∃ i, scanBest simFn live rows = (some i, B) ∧
        firstAt B (scored simFn live rows) = some i ∧
        (i, B) ∈ scored simFn live rows ∧
        (∀ p ∈ scored simFn live rows, p.2 ≤ B) ∧
        ∃ l₁ l₂, scored simFn live rows = l₁ ++ (i, B) :: l₂ ∧
          ∀ q ∈ l₁, q.2 < B) ∧
    (B ≤ -1 → scanBest simFn live rows = (none, -1)) := by
  have hB2 : B = List.foldl max (-1) ((scored simFn live rows).map Prod.snd) := hB
  have hub : ∀ p ∈ scored simFn live rows, p.2 ≤ B := by
    intro p hp
    rw [hB2]
    exact mem_le_foldl_max (-1) (List.mem_map.mpr ⟨p, hp, rfl⟩)
  constructor
  · intro hgt
    have hBmem : B ∈ (scored simFn live rows).map Prod.snd := by
      rcases foldl_max_eq_or_mem ((scored simFn live rows).map Prod.snd) (-1)
        with h | h
      · rw [← hB2] at h
        exact absurd h (ne_of_gt hgt)
      · rw [← hB2] at h
        exact h
    obtain ⟨i, hi⟩ := firstAt_isSome hBmem
    refine ⟨i, ?_, hi, firstAt_mem hi, hub, ?_⟩
    · rw [scanBest_spec, ← hB, if_pos hgt, hi]
    · obtain ⟨l₁, l₂, hl, hne⟩ := firstAt_first hi
      refine ⟨l₁, l₂, hl, ?_⟩
      intro q hq
      have hmem : q ∈ scored simFn live rows := by
        rw [hl]
        exact List.mem_append_left _ hq
      exact lt_of_le_of_ne (hub q hmem) (hne q hq)
  · intro hle
    rw [scanBest_spec, ← hB, if_neg (not_lt.mpr hle)]

/-- C7 counterexample: with the deployed similarity function, a candidate
list whose single candidate scores exactly `-1.0` (a zero-norm stored vector)
attains the maximum similarity, yet the scan selects no candidate — refuting
"the matching scan selects the candidate with the maximum similarity" as a
statement about every candidate list. -/
theorem claim_c7_counterexample :
    cosine_similarity [(1 : ℚ)] [(0 : ℚ)] = -1 ∧
    (scanBest cosine_similarity [(1 : ℚ)] [((7 : ℤ), some [(0 : ℚ)])]).1
      = none := by
  have hcos : cosine_similarity [(1 : ℚ)] [(0 : ℚ)] = -1 := by
    rw [cosine_similarity, if_pos]
    right; right; right; right
    norm_num [sumsq_cons, sumsq_nil]
  refine ⟨hcos, ?_⟩
  simp [scanBest, scanStep, hcos]

theorem stExample_courseRows :
    courseRows stExample 2 = [((9 : ℤ), some (List.replicate 64 (1 : ℚ)))] :=
  rfl

theorem stExample_session :
    stExample.sessions.find? (fun s => s.id == (5 : ℤ) && s.course_id == (2 : ℤ))
      = some ⟨5, 2, 1000, some 10⟩ :=
  rfl

theorem liveExample_len : ¬ liveExample.length < 64 := by
  norm_num [liveExample]

/-- Witness for C2 at a constant similarity of `0 < 0.60`: the check-in is
rejected with 404 and the store is untouched. -/
theorem claim_c2_threshold_witness :
    checkin_vec (fun _ _ => (0 : ℝ)) 2 5 liveExample 0 stExample
      = (.error ⟨404, "No matching student"⟩, stExample) := by
  have hrows : courseRows stExample 2 ≠ [] := by
    rw [stExample_courseRows]
    simp
  have hmax : max (-1 : ℝ) 0 = 0 := max_eq_right (by norm_num)
  have hB : (0 : ℝ) = bestOf (fun _ _ => (0 : ℝ)) (liveExample.take 128)
      (courseRows stExample 2) := by
    rw [stExample_courseRows]
    simp [bestOf, scored, hmax]
  exact (claim_c2_threshold (fun _ _ => (0 : ℝ)) 2 5 liveExample 0 stExample
    ⟨5, 2, 1000, some 10⟩ 0 liveExample_len stExample_session hrows hB).1
    (by norm_num [THRESHOLD])

/-- Witness for C3 at a constant similarity of `1 ≥ 0.60` and a check-in time
of 900, before the cutoff `1000 + 60 * 10`: the check-in succeeds with status
`present`. -/
theorem claim_c3_status_witness :
    ∃ r, (checkin_vec (fun _ _ => (1 : ℝ)) 2 5 liveExample 900 stExample).1
        = .ok r ∧ r.status = "present" := by
  have hrows : courseRows stExample 2 ≠ [] := by
    rw [stExample_courseRows]
    simp
  have hsb : scanBest (fun _ _ => (1 : ℝ)) (liveExample.take 128)
      (courseRows stExample 2) = (some 9, 1) := by
    rw [stExample_courseRows]
    have h1 : (1 : ℝ) > -1 := by norm_num
    simp [scanBest, scanStep, h1]
  have hred := checkin_vec_reduce (fun _ _ => (1 : ℝ)) 2 5 liveExample 900
    stExample ⟨5, 2, 1000, some 10⟩ liveExample_len stExample_session hrows
  rw [hsb] at hred
  dsimp only at hred
  rw [if_neg (by norm_num [THRESHOLD] : ¬ (1 : ℝ) < THRESHOLD)] at hred
  have hok : (checkin_vec (fun _ _ => (1 : ℝ)) 2 5 liveExample 900 stExample).1
      = .ok ⟨9, round4 1,
          (if (900 : ℤ) ≤ (1000 : ℤ) + 60 * ((some (10 : ℤ)).getD 0)
           then "present" else "late"), 2, 5⟩ := by
    rw [hred]
  refine ⟨_, hok, ?_⟩
  exact (claim_c3_status (fun _ _ => (1 : ℝ)) 2 5 liveExample 900 stExample
    ⟨5, 2, 1000, some 10⟩ _ stExample_session hok).1.mpr (by norm_num)

/-- Witness for C4 at an 80-entry embedding (stored whole, `saved_dims = 80`)
and the truncation invariance of check-in. -/
theorem claim_c4_truncation_witness :
    (save_embedding 9 (List.replicate 80 (1 : ℚ)) 0 stExample).1
        = .ok ⟨9, 80⟩ ∧
    checkin_vec (fun _ _ => (0 : ℝ)) 2 5 liveExample 0 stExample
      = checkin_vec (fun _ _ => (0 : ℝ)) 2 5 (liveExample.take 128) 0 stExample := by
  have h := claim_c4_truncation 9 (List.replicate 80 (1 : ℚ)) 0 stExample
    (fun _ _ => (0 : ℝ)) 2 5 liveExample 0
    (by rw [List.length_replicate]; norm_num) rfl
  refine ⟨?_, h.2.2⟩
  have h1 := h.1
  rw [List.length_replicate] at h1
  rw [show min (80 : ℕ) 128 = 80 by omega] at h1
  exact h1

/-- Witness for C5: saving for the absent user id 999 fails with the 404
"Student not found" error and an unchanged store. -/
theorem claim_c5_save_order_witness :
    save_embedding 999 liveExample 0 stExample
      = (.error ⟨404, "Student not found"⟩, stExample) :=
  (claim_c5_save_order 999 liveExample 0 stExample).2.1 liveExample_len rfl

/-- Witness for C6: session id 5 exists but belongs to course 2, so a
check-in against course 3 fails with 404 and an unchanged store. -/
theorem claim_c6_session_resolution_witness :
    checkin_vec (fun _ _ => (0 : ℝ)) 3 5 liveExample 0 stExample
      = (.error ⟨404, "Session not found for course"⟩, stExample) :=
  claim_c6_session_resolution (fun _ _ => (0 : ℝ)) 3 5 liveExample 0 stExample
    liveExample_len (by decide)

/-- Witness for C7 (amended) at a single candidate scoring `1 > -1`: the
scan selects that candidate with its similarity. -/
theorem claim_c7_first_max_witness :
    ∃ i, scanBest (fun _ _ => (1 : ℝ)) [(1 : ℚ)] [((9 : ℤ), some [(1 : ℚ)])]
      = (some i, 1) := by
  have hmax : max (-1 : ℝ) 1 = 1 := max_eq_right (by norm_num)
  have hB : (1 : ℝ) = bestOf (fun _ _ => (1 : ℝ)) [(1 : ℚ)]
      [((9 : ℤ), some [(1 : ℚ)])] := by
    simp [bestOf, scored, hmax]
  obtain ⟨i, h1, -⟩ := (claim_c7_first_max (fun _ _ => (1 : ℝ)) [(1 : ℚ)]
    [((9 : ℤ), some [(1 : ℚ)])] 1 hB).1 (by norm_num)
  exact ⟨i, h1⟩

/-- Witness for C9: the failing save for absent user 999 leaves the store
unchanged. -/
theorem claim_c9_atomic_on_error_witness :
    (save_embedding 999 liveExample 0 stExample).2 = stExample :=
  (claim_c9_atomic_on_error 999 liveExample 0 (fun _ _ => (0 : ℝ)) 2 5
    liveExample 0 stExample).1 ⟨404, "Student not found"⟩ rfl

/-- Witness for C10 at a 300-entry embedding (beyond 256): enrollment
succeeds and stores 128 dimensions. -/
theorem claim_c10_no_upper_bound_witness :
    (save_embedding 9 (List.replicate 300 (1 : ℚ)) 0 stExample).1
      = .ok ⟨9, 128⟩ := by
  have h := (claim_c10_no_upper_bound 9 (List.replicate 300 (1 : ℚ)) 0
    stExample (fun _ _ => (0 : ℝ)) 2 5 0
    (by rw [List.length_replicate]; norm_num)).2.1 rfl
  have h1 := h.1
  rw [List.length_replicate] at h1
  rw [show min (300 : ℕ) 128 = 128 by omega] at h1
  exact h1

end FaceAttendance
